import Mathlib

/-!
# Gosh: shallow embedding and verification

A shallow embedding of the core of the `gosh` typed shell
(`src/display.c`, `src/runner.c`, `src/src/sh.c`), together with
theorems settling the behavioural claims about it.

Conventions:
* machine integers become `Nat`/`Int`; `size_t` subtractions that cannot
  underflow on the considered inputs become truncated `Nat` subtraction;
* the filesystem (`stat`) and the terminal width are oracles passed as
  explicit parameters;
* code of the repository that is not under `src/` (the type system
  `type.c`, the value model `value.c`, the common helpers, the symbol
  table) is modelled from the spec, and each such definition says so in
  its doc comment.
-/

namespace Gosh

/-! ## Types (modelled from the spec, §3 and §4.1: `type.c` is not under `src/`) -/

/-- Modelled from the spec: the kind tags of the type system
(base kinds Unit, Int, Float, Bool, Str, File; compound kinds Fn, List,
Tuple; Invalid sentinel). -/
inductive tyKind where
  | kUnit | kInt | kFloat | kBool | kStr | kFile
  | kFn | kList | kTuple | kInvalid
deriving DecidableEq

/-- Modelled from the spec: a type is a tagged variant over base kinds and
compound kinds Fn(param, result), List(element), Tuple(elements), plus the
Invalid sentinel. -/
inductive ty where
  | unit | int | float | bool | str | file | invalid
  | fn (param result : ty)
  | list (elem : ty)
  | tuple (elems : List ty)

/-- Modelled from the spec: `kind(t)`. -/
def typeKind : ty → tyKind
  | .unit => .kUnit
  | .int => .kInt
  | .float => .kFloat
  | .bool => .kBool
  | .str => .kStr
  | .file => .kFile
  | .invalid => .kInvalid
  | .fn _ _ => .kFn
  | .list _ => .kList
  | .tuple _ => .kTuple

/-- Modelled from the spec: `is_kind(k, t)`. -/
def typeIsKind (k : tyKind) (t : ty) : Bool := decide (typeKind t = k)

/-- Modelled from the spec: `is_list(t)`. -/
def typeIsList (t : ty) : Bool := typeIsKind .kList t

/-- Modelled from the spec: `list_element(t)` (meaningful on lists only). -/
def typeGetListElements : ty → ty
  | .list e => e
  | _ => .invalid

/-- Modelled from the spec: `fn_result(t)` (meaningful on functions only). -/
def typeGetFnResult : ty → ty
  | .fn _ r => r
  | _ => .invalid

/-- Modelled from the spec: `unit_applies_to_fn(t)` is true iff `t` is
`Fn(Unit, _)`. -/
def typeUnitAppliesToFn : ty → Bool
  | .fn .unit _ => true
  | _ => false

/-! ## Values (modelled from the spec, §3: `value.c` is not under `src/`) -/

/-- The host builtins that can appear as `Fn` values.  The only builtin
implementation under `src/` is `impl_size__` in `runner.c`. -/
inductive builtinId where
  | size
deriving DecidableEq

/-- Modelled from the spec: a value is a tagged variant
Invalid / Int / Str / File(filename) / Vector / Fn, plus the Unit value
produced by `valueCreateUnit` (used by the automatic unit application in
`displayResult`). -/
inductive value where
  | invalid
  | unit
  | int (i : Int)
  | str (s : String)
  | file (filename : String)
  | vec (elems : List value)
  | fn (b : builtinId)

/-- Modelled from the spec: Invalid test. -/
def valueIsInvalid : value → Bool
  | .invalid => true
  | _ => false

/-- Modelled from the spec: the element vector of a Vector value. -/
def valueGetVector : value → List value
  | .vec l => l
  | _ => []

/-- Modelled from the spec: the filename carried by a File value; any
other value carries no filename (the C function returns a null pointer). -/
def valueGetFilename : value → Option String
  | .file n => some n
  | _ => none

/-- A filesystem oracle standing for the external `stat` syscall: maps a
filename to its size in bytes, or `none` on any stat failure. -/
def statOracle := String → Option Int

/-- `impl_size__` from `src/runner.c`: resolve the value's filename (no
filename: Invalid), stat it (failure: Invalid), otherwise `Int(st_size)`. -/
def impl_size (fs : statOracle) (v : value) : value :=
  match valueGetFilename v with
  | none => .invalid
  | some filename =>
    match fs filename with
    | none => .invalid
    | some sz => .int sz

/-- Modelled from the spec (§4.6): `call` applies a `Fn` value to an
argument; `call` on a non-Fn value yields Invalid. -/
def valueCall (fs : statOracle) (f arg : value) : value :=
  match f with
  | .fn .size => impl_size fs arg
  | _ => .invalid

/-! ## AST and evaluator (`src/runner.c`) -/

/-- The AST kinds handled by the evaluator's dispatch table, plus a
constructor standing for every AST kind with no handler (those hit the
`errprintf` fallback in `run`). -/
inductive ast where
  | fnApp (l : ast) (children : List ast)
  | strLit (s : String)
  | listLit (children : List ast)
  | symbolLit (name : String)
  | unhandled

/-- The evaluation environment; in the core it carries no state
(`envCtx env = {}` in `src/src/sh.c`, and every handler ignores it). -/
structure envCtx where

mutual

/-- `run` from `src/runner.c`: dispatch by AST kind.
`runSymbolLit` compares the symbol's name against the literal string
"size" (it ignores the environment and the symbol table entirely);
`runStrLit` builds a File value; `runListLit` evaluates children in
order into a Vector; unhandled kinds report an internal error and
return Invalid. -/
def run (fs : statOracle) (env : envCtx) : ast → value
  | .fnApp l children => runArgs fs env (run fs env l) children
  | .strLit s => .file s
  | .listLit children => .vec (runList fs env children)
  | .symbolLit name => if name = "size" then .fn .size else .invalid
  | .unhandled => .invalid

/-- The argument loop of `runFnApp`:
`for each arg: result = valueCall(result, run(env, arg))`. -/
def runArgs (fs : statOracle) (env : envCtx) (acc : value) : List ast → value
  | [] => acc
  | a :: rest => runArgs fs env (valueCall fs acc (run fs env a)) rest

/-- The child loop of `runListLit`. -/
def runList (fs : statOracle) (env : envCtx) : List ast → List value
  | [] => []
  | a :: rest => run fs env a :: runList fs env rest

end

/-- Modelled from the spec (§4.6, the claimed behaviour): resolution of a
`SymbolLit` by symbol-table lookup — a bound built-in materializes as a
`Fn` value, an unbound name yields Invalid.  The table maps bound
built-in symbol names to their builtin. -/
def runSymbolLitByLookup (table : String → Option builtinId) (name : String) : value :=
  match table name with
  | some b => .fn b
  | none => .invalid

/-- A filesystem oracle on which every stat fails. -/
def fsEmpty : statOracle := fun _ => none

/-- A global symbol table that binds the builtin `size` implementation
under the name "filesize". -/
def tableFilesize : String → Option builtinId :=
  fun n => if n = "filesize" then some .size else none

/-- A filesystem oracle on which exactly one file, "foo.txt" of 2048
bytes, stats successfully. -/
def fsFoo : statOracle := fun n => if n = "foo.txt" then some 2048 else none

/-! ## The display dispatcher (`displayResult` in `src/display.c`) -/

/-- One top-level rendering action chosen by `displayResult`: the
auto-application notice, or the renderer invoked (`displayRegular`,
`displayListList`, `displayFileList`, `displayTable`, `displayStr`), or
the `displayFile` parenthetical (with the directory grid) appended for
File-typed results. -/
inductive dispEvent where
  | autoApplied (t : ty)
  | regular (v : value) (t : ty)
  | listList (v : value) (t : ty)
  | fileList (v : value) (t : ty)
  | table (v : value) (t : ty)
  | strDisp (v : value) (t : ty)
  | fileInfo (filename : Option String)

/-- The chain of checks in `displayResult` after the auto-application
step, from `src/display.c` lines 306-339. -/
def dispatchBody (v : value) (t : ty) : List dispEvent :=
  if valueIsInvalid v then [.regular v t]
  else if typeIsList t then
    -- `elements` in the C is `typeGetListElements(resultType)`
    if typeIsList (typeGetListElements t) then [.listList v t]
    else if (valueGetVector v).length ≤ 1 then [.regular v t]
    else if typeIsKind .kFile (typeGetListElements t) then [.fileList v t]
    else if typeIsKind .kTuple (typeGetListElements t) then [.table v t]
    else [.regular v t]
  else if typeIsKind .kStr t then [.strDisp v t]
  else [.regular v t] ++ (if typeIsKind .kFile t then [.fileInfo (valueGetFilename v)] else [])

/-- `displayResult` from `src/display.c`: if the result type is
`() -> 'a`, print the auto-application notice and replace the value by
`valueCall(result, Unit)` and the type by the function's result type;
then run the dispatch chain. -/
def displayResultEvents (fs : statOracle) (v : value) (t : ty) : List dispEvent :=
  if typeUnitAppliesToFn t then
    .autoApplied t :: dispatchBody (valueCall fs v .unit) (typeGetFnResult t)
  else
    dispatchBody v t

/-- The dispatch order exactly as claim C2 words it, with every check
written as a direct pattern match on the shape of the type: (1)
auto-apply on `Fn(Unit, _)`; (2) Invalid value as scalar; (3) list types
by element shape; (4) `Str`; (5) otherwise scalar, with the File
parenthetical appended for File-typed results. -/
def claimedBodyC2 (v : value) (t : ty) : List dispEvent :=
  match v with
  | .invalid => [.regular .invalid t]
  | v =>
    match t with
    | .list elem =>
      (match elem with
       | .list _ => [.listList v t]
       | _ =>
         if (valueGetVector v).length ≤ 1 then [.regular v t]
         else
           match elem with
           | .file => [.fileList v t]
           | .tuple _ => [.table v t]
           | _ => [.regular v t])
    | .str => [.strDisp v t]
    | .file => [.regular v t, .fileInfo (valueGetFilename v)]
    | _ => [.regular v t]

/-- The full claimed dispatcher of C2 (see `claimedBodyC2`). -/
def claimedDispatchC2 (fs : statOracle) (v : value) (t : ty) : List dispEvent :=
  match t with
  | .fn .unit r => .autoApplied t :: claimedBodyC2 (valueCall fs v .unit) r
  | _ => claimedBodyC2 v t

/-- Recognizes the auto-application notice among display events. -/
def isAutoApplyEvent : dispEvent → Bool
  | .autoApplied _ => true
  | _ => false

/-! ## The nested-list printer (`displayListList` in `src/display.c`) -/

/-- One unit of output of the nested-list printer: a single character
(`putchar`), a run of spaces (`putnchar`), a value printed by
`valuePrint`, or the ` :: {type}` suffix line. -/
inductive outTok where
  | ch (c : Char)
  | spaces (n : Nat)
  | val (v : value)
  | typeSuffix (t : ty)

/-- Option `displayListList_bracesOnOwnLine` from `src/display.c`. -/
def displayListList_bracesOnOwnLine : Bool := false

/-- Option `displayListList_bracesOnOwnLineIfRecursing` from
`src/display.c`. -/
def displayListList_bracesOnOwnLineIfRecursing : Bool := true

/-- The element loop of `displayListList`: at index `i` of `total`
elements, indent by `depth+1` when `i ≠ 0`, emit the already-rendered
element, and append `",\n"` when `i < total - 1`. -/
def listItemsToks (depth total : Nat) : Nat → List (List outTok) → List outTok
  | _, [] => []
  | i, c :: cs =>
    (if i ≠ 0 then [outTok.spaces (depth + 1)] else [])
      ++ c
      ++ (if i < total - 1 then [outTok.ch ',', outTok.ch '\n'] else [])
      ++ listItemsToks depth total (i + 1) cs

/-- Everything `displayListList` prints around its element loop: the
opening brace (on its own line with a `depth+1` indent when
`bracesOnOwnLine`), the elements, the closing brace (after a newline
and `depth` indent when `bracesOnOwnLine`), and at depth 0 the type
suffix (preceded by a newline when the braces stayed on the line). -/
def wrapListToks (t : ty) (depth : Nat) (bracesOnOwnLine : Bool)
    (children : List (List outTok)) : List outTok :=
  [outTok.ch '[']
    ++ (if bracesOnOwnLine then [outTok.ch '\n', outTok.spaces (depth + 1)] else [])
    ++ listItemsToks depth children.length 0 children
    ++ (if bracesOnOwnLine then [outTok.ch '\n', outTok.spaces depth] else [])
    ++ [outTok.ch ']']
    ++ (if depth = 0 then
          (if bracesOnOwnLine then [] else [outTok.ch '\n']) ++ [outTok.typeSuffix t]
        else [])

mutual

/-- `displayListList` from `src/display.c`: `elements` is the value's
vector, `elementType = typeGetListElements t`, and
`recursing = typeIsList (typeGetListElements elementType)` — the
element type is itself a list of lists.  The braces go on their own
lines exactly when an option forces it (off) or when recursing (on);
recursing elements are printed recursively at `depth+1`, others via
`valuePrint`. -/
def displayListList (v : value) (t : ty) (depth : Nat) : List outTok :=
  match v with
  | .vec elems =>
    wrapListToks t depth
      (displayListList_bracesOnOwnLine
        || (typeIsList (typeGetListElements (typeGetListElements t))
            && displayListList_bracesOnOwnLineIfRecursing))
      (listListChildren elems (typeGetListElements t)
        (typeIsList (typeGetListElements (typeGetListElements t))) depth)
  | _ =>
    wrapListToks t depth
      (displayListList_bracesOnOwnLine
        || (typeIsList (typeGetListElements (typeGetListElements t))
            && displayListList_bracesOnOwnLineIfRecursing))
      []

/-- Renders each element of the list: recursively for nested lists of
lists, by `valuePrint` otherwise. -/
def listListChildren (elems : List value) (elemT : ty) (recursing : Bool) (depth : Nat) :
    List (List outTok) :=
  match elems with
  | [] => []
  | e :: es =>
    (if recursing then displayListList e elemT (depth + 1) else [outTok.val e])
      :: listListChildren es elemT recursing depth

end

/-- Claim C8's braces rule as stated: every list whose element type is
itself a list prints its opening brace on its own line with the
children indented by `depth+1` spaces. -/
def claimedNestedBraces : Prop :=
  ∀ (v : value) (t : ty) (d : Nat), typeIsList (typeGetListElements t) = true →
    (displayListList v t d).take 3 = [outTok.ch '[', outTok.ch '\n', outTok.spaces (d + 1)]

/-! ## The pipeline (`gosh` in `src/src/sh.c`) -/

/-- An oracle for the parse and analysis phases (`lexer.c`, `parser.c`,
`analyzer.c` are external to `src/`): the tree they produce, its derived
type `dt`, the diagnostic counts the two phases report, and the total
number of increments of the process-wide internal error counter they
emit. -/
structure phaseOracle where
  tree : ast
  dt : ty
  parseErrors : Nat
  analyzeErrors : Nat
  internalDelta : Nat

/-- `compile` from `src/src/sh.c`: parse then analyze, accumulating both
error counts; any internal errors emitted advance the process-wide
counter.  Returns the tree, the accumulated error count, and the
advanced internal counter. -/
def compileModel (o : phaseOracle) (counter : Nat) : ast × Nat × Nat :=
  (o.tree, o.parseErrors + o.analyzeErrors, counter + o.internalDelta)

/-- Modelled from the spec (§5: the helper is not under `src/`): the
evaluator samples the counter at entry and refuses to evaluate if the
count increased since then. -/
def no_errors_recently (snapshot current : Nat) : Bool := decide (current ≤ snapshot)

/-- `gosh` from `src/src/sh.c`: snapshot the internal error counter,
compile, and only when the compile reported zero errors and the counter
did not increase, run the tree and (when `display` is set) display the
result.  Returns the produced value (null when suppressed) and the
display events emitted. -/
def gosh (fs : statOracle) (o : phaseOracle) (counter : Nat) (display : Bool) :
    Option value × List dispEvent :=
  if (compileModel o counter).2.1 = 0 ∧
      no_errors_recently counter (compileModel o counter).2.2 = true then
    (some (run fs {} (compileModel o counter).1),
     if display then
       displayResultEvents fs (run fs {} (compileModel o counter).1) o.dt
     else [])
  else (none, [])

/-- An oracle on which the parser reports one diagnostic. -/
def oracleParseError : phaseOracle :=
  { tree := .strLit "x", dt := .file, parseErrors := 1, analyzeErrors := 0, internalDelta := 0 }

/-! ## The REPL (`repl` and `replCmd` in `src/src/sh.c`)

Input lines are modelled as `List Char`, matching the C `char*`. -/

/-- What one REPL iteration does with the line it read. -/
inductive replAction where
  | skip
  | exitLoop
  | command (name : List Char) (rest : List Char)
  | noCmdName
  | unknownCmd (tok : List Char)
  | pipeline (line : List Char)
deriving DecidableEq

/-- The fixed meta-command registry of `src/src/sh.c` (`commands`). -/
def replCommandNames : List (List Char) := [['c', 'd'], ['a', 's', 't'], ['t', 'y', 'p', 'e']]

/-- `replCmd` from `src/src/sh.c`, applied to the line after its leading
colon.  `cmdLength` is the index of the first space (or the whole
length); an empty command name is diagnosed; otherwise the registry is
scanned for an entry of the same length whose name matches those first
`cmdLength` characters — i.e. for an entry equal to the token — and its
handler receives the line from position `cmdLength + 1` on.  (When the
line has no space, the C passes a pointer one past the terminator; the
model gives the handler the empty remainder.)  With no match, the
unknown-command diagnostic is printed. -/
def replCmdModel (input : List Char) : replAction :=
  if (input.takeWhile (fun c => c ≠ ' ')).length = 0 then .noCmdName
  else if input.takeWhile (fun c => c ≠ ' ') = ['c', 'd'] then
    .command ['c', 'd'] (input.drop ((input.takeWhile (fun c => c ≠ ' ')).length + 1))
  else if input.takeWhile (fun c => c ≠ ' ') = ['a', 's', 't'] then
    .command ['a', 's', 't'] (input.drop ((input.takeWhile (fun c => c ≠ ' ')).length + 1))
  else if input.takeWhile (fun c => c ≠ ' ') = ['t', 'y', 'p', 'e'] then
    .command ['t', 'y', 'p', 'e'] (input.drop ((input.takeWhile (fun c => c ≠ ' ')).length + 1))
  else .unknownCmd (input.takeWhile (fun c => c ≠ ' '))

/-- The routing done by one iteration of `repl` in `src/src/sh.c`:
null/empty input is skipped, the exact line ":exit" breaks the loop,
any other line starting with ':' goes to `replCmd` (without the colon),
and everything else runs the full pipeline with display enabled. -/
def routeLine (line : List Char) : replAction :=
  if line = [] then .skip
  else if line = [':', 'e', 'x', 'i', 't'] then .exitLoop
  else if line.head? = some ':' then replCmdModel (line.drop 1)
  else .pipeline line

/-- Holds of the actions that print a diagnostic and let the loop
continue. -/
def isDiagnostic : replAction → Bool
  | .noCmdName => true
  | .unknownCmd _ => true
  | _ => false

/-! ## The grid layout (`displayGrid` in `src/display.c`) -/

/-- The inter-column gap of `displayGrid` (`enum {gap = 2}`). -/
def gap : Nat := 2

/-- Modelled from the spec: the ceiling-division helper `intdiv_roundup`
used by `displayGrid` is not under `src/`; the spec fixes
`rows r = ceil(N/k)`. -/
def intdiv_roundup (n k : Nat) : Nat := (n + k - 1) / k

/-- The inner column loop of `displayGrid` for one row: starting at
column `col` with `rem` column slots remaining, collect the entry
indices `row + col*rows` printed in this row; the loop breaks at the
first out-of-range index (`vectorGet` returning null). -/
def gridRowEntries (numEntries rows row col rem : Nat) : List Nat :=
  match rem with
  | 0 => []
  | rem + 1 =>
    if row + col * rows < numEntries then
      (row + col * rows) :: gridRowEntries numEntries rows row (col + 1) rem
    else []

/-- `columns = windowWidth / columnWidth` after `columnWidth += gap`. -/
def gridColumns (columnWidth windowWidth : Nat) : Nat :=
  windowWidth / (columnWidth + gap)

/-- `rows = intdiv_roundup(entries.length, columns)`. -/
def gridRows (numEntries columnWidth windowWidth : Nat) : Nat :=
  intdiv_roundup numEntries (gridColumns columnWidth windowWidth)

/-- The grid printed by `displayGrid`, row by row, as the list of entry
indices appearing on each printed line. -/
def gridLines (numEntries columnWidth windowWidth : Nat) : List (List Nat) :=
  (List.range (gridRows numEntries columnWidth windowWidth)).map
    (fun row =>
      gridRowEntries numEntries (gridRows numEntries columnWidth windowWidth) row 0
        (gridColumns columnWidth windowWidth))

/-- The width at which entry `i` prints (`printEntry`'s return value);
out-of-range reads do not occur on the considered rows. -/
def widthAt (entryWidths : List Nat) (i : Nat) : Nat := (entryWidths[i]?).getD 0

/-- The number of characters `displayGrid` emits for one printed line:
each cell prints its entry and then pads with
`columnWidth - entrywidth` spaces (`C` is the column width after the
gap was added). -/
def printedRowWidth (entryWidths : List Nat) (C : Nat) (line : List Nat) : Nat :=
  line.foldl (fun acc i => acc + (widthAt entryWidths i + (C - widthAt entryWidths i))) 0

/-- The grid-layout property of claim C1, for entries of widths
`entryWidths`, maximum entry width `W` and terminal width `T`:
the column count `k = T/(W+gap)` is at least 1, there are exactly
`ceil(N/k)` rows, the cell at `(row, col)` shows entry `row + col*rows`
when that index is in range and is blank otherwise, and every printed
line is at most `T` characters wide. -/
def gridClaimHolds (entryWidths : List Nat) (W T : Nat) : Prop :=
  1 ≤ gridColumns W T ∧
  gridColumns W T = T / (W + gap) ∧
  gridRows entryWidths.length W T
    = (entryWidths.length + T / (W + gap) - 1) / (T / (W + gap)) ∧
  entryWidths.length ≤ T / (W + gap) * gridRows entryWidths.length W T ∧
  (1 ≤ entryWidths.length →
    T / (W + gap) * (gridRows entryWidths.length W T - 1) < entryWidths.length) ∧
  (gridLines entryWidths.length W T).length = gridRows entryWidths.length W T ∧
  (∀ r, r < gridRows entryWidths.length W T → ∀ c, c < T / (W + gap) →
    ((gridLines entryWidths.length W T).getD r [])[c]?
      = if r + c * gridRows entryWidths.length W T < entryWidths.length
        then some (r + c * gridRows entryWidths.length W T)
        else none) ∧
  (∀ line ∈ gridLines entryWidths.length W T,
    printedRowWidth entryWidths (W + gap) line ≤ T)

/-! ## The size formatter (`printSizeNicely` in `src/display.c`) -/

/-- `sizeMagnitudes` from `src/display.c` (binary magnitudes). -/
def sizeMagnitudes : Nat := 1024

/-- The compile-time SI toggle, off in `src/display.c`. -/
def useSIUnitNames : Bool := false

/-- The decimal unit names used when the SI toggle is off. -/
def units : List String := ["bytes", "kB", "MB", "GB", "TB"]

/-- The IEC unit names used when the SI toggle is on. -/
def unitsSI : List String := ["bytes", "kiB", "MiB", "GiB", "TiB"]

/-- The magnitude loop of `printSizeNicely`:
`while (size > sizeMagnitudes*magnitude) { magnitude *= sizeMagnitudes;
orderOfMag++; if (orderOfMag >= 4) break; }`.  Returns the final
`(magnitude, orderOfMag)`. -/
def sizeLoop (size magnitude orderOfMag : Nat) : Nat × Nat :=
  if sizeMagnitudes * magnitude < size then
    if 4 ≤ orderOfMag + 1 then (sizeMagnitudes * magnitude, orderOfMag + 1)
    else sizeLoop size (sizeMagnitudes * magnitude) (orderOfMag + 1)
  else (magnitude, orderOfMag)
termination_by 4 - orderOfMag
decreasing_by omega

/-- What `printSizeNicely` prints: the chosen magnitude and order of
magnitude, the number of digits after the decimal point, and the unit
name. -/
structure sizeOutput where
  magnitude : Nat
  orderOfMag : Nat
  digitsAfterPoint : Nat
  unit : String
deriving DecidableEq

/-- `printSizeNicely` from `src/display.c`.  The C compares the double
`relativeSize = size/magnitude` against 100 and 10; the magnitude is a
power of two, so for sizes below `2^53` the division is exact and
`relativeSize > c` holds iff `c * magnitude < size`, which is how the
comparison is embedded here. -/
def printSizeNicely (size : Nat) : sizeOutput :=
  { magnitude := (sizeLoop size 1 0).1
    orderOfMag := (sizeLoop size 1 0).2
    digitsAfterPoint :=
      if 100 * (sizeLoop size 1 0).1 < size then 0
      else if 10 * (sizeLoop size 1 0).1 < size then 1 else 2
    unit := (if useSIUnitNames then unitsSI else units).getD (sizeLoop size 1 0).2 "" }

/-- Claim C3 as stated: the chosen unit is the largest unit (order of
magnitude at most 4) whose scaled value is at most 1024, the scaled
value of the chosen unit is at most 1024, and the digit count is 0 when
the scaled value is ≥ 100 (`100 * magnitude ≤ size`), 1 when it is
≥ 10, else 2; the unit label is the decimal name. -/
def claimedSizeFormat (size : Nat) : Prop :=
  (∀ m, m ≤ 4 → size ≤ 1024 ^ (m + 1) → m ≤ (printSizeNicely size).orderOfMag) ∧
  size ≤ 1024 ^ ((printSizeNicely size).orderOfMag + 1) ∧
  (printSizeNicely size).digitsAfterPoint
    = (if 100 * (printSizeNicely size).magnitude ≤ size then 0
       else if 10 * (printSizeNicely size).magnitude ≤ size then 1 else 2) ∧
  (printSizeNicely size).unit = units.getD (printSizeNicely size).orderOfMag ""

/-- The order of magnitude as the amended claim describes it: the
smallest one whose scaled value is at most 1024, capped at 4 (TB). -/
def expectedOrderOfMag (size : Nat) : Nat :=
  if size ≤ 1024 then 0
  else if size ≤ 1024 ^ 2 then 1
  else if size ≤ 1024 ^ 3 then 2
  else if size ≤ 1024 ^ 4 then 3
  else 4

/-- The size formatter's output as the amended claim describes it:
magnitude `1024^m` for the smallest `m ≤ 4` with `size ≤ 1024^(m+1)`
(capped at 4), 0 decimal digits when the scaled value exceeds 100, 1
when it exceeds 10, else 2, and the decimal unit name. -/
def expectedSizeOutput (size : Nat) : sizeOutput :=
  { magnitude := 1024 ^ expectedOrderOfMag size
    orderOfMag := expectedOrderOfMag size
    digitsAfterPoint :=
      if 100 * 1024 ^ expectedOrderOfMag size < size then 0
      else if 10 * 1024 ^ expectedOrderOfMag size < size then 1 else 2
    unit := units.getD (expectedOrderOfMag size) "" }

/-! ## Theorems: the evaluator claims -/

/-- The argument loop of `runFnApp` is a left fold of `valueCall`. -/
theorem runArgs_eq_foldl (fs : statOracle) (env : envCtx) (acc : value) (args : List ast) :
    runArgs fs env acc args = args.foldl (fun r a => valueCall fs r (run fs env a)) acc := by
  induction args generalizing acc with
  | nil => rfl
  | cons a rest ih => simp only [runArgs, List.foldl]; exact ih _

/-- C10: evaluating `FnApp` with an empty argument vector returns exactly
the value of the head expression, and with arguments present the result
is the left fold of `valueCall` over the evaluated arguments in order. -/
theorem fnApp_eval_is_fold (fs : statOracle) (env : envCtx) (l : ast) (args : List ast) :
    run fs env (.fnApp l []) = run fs env l ∧
    run fs env (.fnApp l args)
      = args.foldl (fun r a => valueCall fs r (run fs env a)) (run fs env l) := by
  exact ⟨rfl, by rw [run]; exact runArgs_eq_foldl fs env _ args⟩

/-- C6: the `size` builtin returns `Int(size_bytes)` exactly when the
value carries a filename and the stat succeeds; on a stat failure or a
value with no filename it returns Invalid; in every case it returns a
value (Invalid or Int) rather than raising. -/
theorem size_builtin_spec (fs : statOracle) (v : value) :
    (∀ name sz, valueGetFilename v = some name → fs name = some sz →
        impl_size fs v = .int sz) ∧
    (∀ name, valueGetFilename v = some name → fs name = none →
        impl_size fs v = .invalid) ∧
    (valueGetFilename v = none → impl_size fs v = .invalid) ∧
    (impl_size fs v = .invalid ∨ ∃ sz, impl_size fs v = .int sz) := by
  refine ⟨?_, ?_, ?_, ?_⟩
  · intro name sz hn hf
    simp [impl_size, hn, hf]
  · intro name hn hf
    simp [impl_size, hn, hf]
  · intro hn
    simp [impl_size, hn]
  · cases hname : valueGetFilename v with
    | none => exact Or.inl (by simp [impl_size, hname])
    | some name =>
      cases hf : fs name with
      | none => exact Or.inl (by simp [impl_size, hname, hf])
      | some sz => exact Or.inr ⟨sz, by simp [impl_size, hname, hf]⟩

/-- Witness for C6: `size` applied to the 2048-byte file "foo.txt". -/
theorem size_builtin_spec_witness : impl_size fsFoo (.file "foo.txt") = .int 2048 :=
  (size_builtin_spec fsFoo (.file "foo.txt")).1 "foo.txt" 2048 rfl (by simp [fsFoo])

/-- C5 (the code at the claim's failing inputs): the evaluator in
`src/runner.c` resolves a `SymbolLit` by comparing the name against the
literal string "size" and ignores the symbol table: a table binding the
builtin under the name "filesize" still evaluates to Invalid, although
resolution by lookup — `runSymbolLitByLookup`, the behaviour the spec
declares intended — yields the `Fn` value; conversely the name "size"
evaluates to the `Fn` value even against an empty table, where lookup
yields Invalid. -/
theorem symbolLit_strcmp_not_lookup :
    run fsEmpty {} (.symbolLit "filesize") = .invalid ∧
    runSymbolLitByLookup tableFilesize "filesize" = .fn .size ∧
    run fsEmpty {} (.symbolLit "size") = .fn .size ∧
    runSymbolLitByLookup (fun _ => none) "size" = .invalid := by
  refine ⟨?_, ?_, rfl, rfl⟩
  · simp [run]
  · simp [runSymbolLitByLookup, tableFilesize]

/-! ## Theorems: the display dispatcher claims -/

/-- The dispatch chain after auto-application agrees with the claimed
order of checks, branch by branch. -/
theorem dispatchBody_eq_claimedBody (v : value) (t : ty) :
    dispatchBody v t = claimedBodyC2 v t := by
  cases t with
  | list elem =>
    cases v <;> cases elem <;>
      simp [dispatchBody, claimedBodyC2, valueIsInvalid, typeIsList, typeIsKind, typeKind,
        typeGetListElements, valueGetVector, valueGetFilename]
  | fn p r =>
    cases v <;>
      simp [dispatchBody, claimedBodyC2, valueIsInvalid, typeIsList, typeIsKind, typeKind,
        valueGetFilename]
  | tuple elems => cases v <;> rfl
  | _ => cases v <;> rfl

/-- C2: `displayResult` dispatches by the first matching check in the
claimed fixed order — auto-apply on `Fn(Unit, _)`, Invalid as scalar,
list types by element shape (nested list / small vector / file grid /
table / scalar), `Str` by the string printer, otherwise scalar with the
File parenthetical appended for File-typed results. -/
theorem displayResult_dispatch_order (fs : statOracle) (v : value) (t : ty) :
    displayResultEvents fs v t = claimedDispatchC2 fs v t := by
  cases t with
  | fn p r =>
    cases p <;>
      simp [displayResultEvents, claimedDispatchC2, typeUnitAppliesToFn, typeGetFnResult,
        dispatchBody_eq_claimedBody]
  | _ =>
    simp [displayResultEvents, claimedDispatchC2, typeUnitAppliesToFn,
      dispatchBody_eq_claimedBody]

/-- The dispatch chain never prints the auto-application notice. -/
theorem countP_autoApply_dispatchBody (v : value) (t : ty) :
    (dispatchBody v t).countP isAutoApplyEvent = 0 := by
  unfold dispatchBody
  repeat' split
  all_goals rfl

/-- On a function type, the dispatch chain renders the value as a scalar
(no further application happens). -/
theorem dispatchBody_fn (v : value) (p r : ty) :
    dispatchBody v (.fn p r) = [.regular v (.fn p r)] := by
  cases hv : valueIsInvalid v <;>
    simp [dispatchBody, hv, typeIsList, typeIsKind, typeKind]

/-- C7: on a result of type `Fn(Unit, r)`, display prints the
auto-application notice, replaces the value by `call(value, Unit)` and
the type by `r`, and does this exactly once — in particular for
`Fn(Unit, Fn(Unit, x))` the inner function is not applied again and the
once-applied value is scalar-rendered at type `Fn(Unit, x)`. -/
theorem display_auto_apply_once (fs : statOracle) (v : value) (r : ty) :
    displayResultEvents fs v (.fn .unit r)
      = .autoApplied (.fn .unit r) :: dispatchBody (valueCall fs v .unit) r ∧
    (displayResultEvents fs v (.fn .unit r)).countP isAutoApplyEvent = 1 ∧
    (∀ x, r = .fn .unit x →
      displayResultEvents fs v (.fn .unit r)
        = [.autoApplied (.fn .unit r), .regular (valueCall fs v .unit) r]) := by
  refine ⟨rfl, ?_, ?_⟩
  · simp [displayResultEvents, typeUnitAppliesToFn, List.countP_cons, isAutoApplyEvent,
      countP_autoApply_dispatchBody]
  · rintro x rfl
    simp [displayResultEvents, typeUnitAppliesToFn, typeGetFnResult, dispatchBody_fn]

/-- Witness for C7: a `Fn(Unit, Fn(Unit, Int))` result is applied once
and the inner `Fn(Unit, Int)` is left unapplied. -/
theorem display_auto_apply_once_witness :
    displayResultEvents fsEmpty .invalid (.fn .unit (.fn .unit .int))
      = [.autoApplied (.fn .unit (.fn .unit .int)),
         .regular (valueCall fsEmpty .invalid .unit) (.fn .unit .int)] :=
  (display_auto_apply_once fsEmpty .invalid (.fn .unit .int)).2.2 .int rfl

/-! ## Theorems: the pipeline claim -/

/-- C4: the pipeline runs the evaluator iff the compile phase reported
zero errors and the internal error counter did not increase since entry;
when suppressed, no value is produced and nothing is displayed; when it
runs, the tree's value is produced and displayed iff display is set. -/
theorem gosh_guard (fs : statOracle) (o : phaseOracle) (counter : Nat) (display : Bool) :
    ((gosh fs o counter display).1.isSome = true ↔
      (o.parseErrors + o.analyzeErrors = 0 ∧ o.internalDelta = 0)) ∧
    (¬(o.parseErrors + o.analyzeErrors = 0 ∧ o.internalDelta = 0) →
      gosh fs o counter display = (none, [])) ∧
    ((o.parseErrors + o.analyzeErrors = 0 ∧ o.internalDelta = 0) →
      gosh fs o counter display
        = (some (run fs {} o.tree),
           if display then displayResultEvents fs (run fs {} o.tree) o.dt else [])) := by
  have hc_iff : ((compileModel o counter).2.1 = 0 ∧
      no_errors_recently counter (compileModel o counter).2.2 = true) ↔
      (o.parseErrors + o.analyzeErrors = 0 ∧ o.internalDelta = 0) := by
    simp only [compileModel, no_errors_recently, decide_eq_true_eq]
    omega
  by_cases h : o.parseErrors + o.analyzeErrors = 0 ∧ o.internalDelta = 0
  · have hg : gosh fs o counter display
        = (some (run fs {} o.tree),
           if display then displayResultEvents fs (run fs {} o.tree) o.dt else []) := by
      unfold gosh
      rw [if_pos (hc_iff.mpr h)]
      rfl
    refine ⟨?_, fun hn => absurd h hn, fun _ => hg⟩
    rw [hg]
    simp [h]
  · have hg : gosh fs o counter display = (none, []) := by
      unfold gosh
      rw [if_neg (fun hc => h (hc_iff.mp hc))]
    refine ⟨?_, fun _ => hg, fun hp => absurd hp h⟩
    rw [hg]
    simp only [Option.isSome_none, Bool.false_eq_true, false_iff]
    omega

/-- Witness for C4: with one parse error, evaluation is suppressed, no
value is produced and nothing is displayed. -/
theorem gosh_guard_witness : gosh fsEmpty oracleParseError 0 true = (none, []) :=
  (gosh_guard fsEmpty oracleParseError 0 true).2.1 (by simp [oracleParseError])

/-! ## Theorems: the REPL claim -/

/-- C9: routing of one REPL line — empty skipped, the exact ":exit"
terminates, any other ':'-line is routed by the token before the first
space to the fixed registry {cd, ast, type} whose handler receives the
remainder of the line, a ':'-line naming no registered command prints a
diagnostic and the loop continues, and every other line runs the full
pipeline. -/
theorem repl_routing (line : List Char) :
    routeLine [] = .skip ∧
    routeLine [':', 'e', 'x', 'i', 't'] = .exitLoop ∧
    (line ≠ [] → line ≠ [':', 'e', 'x', 'i', 't'] → line.head? = some ':' →
      ((line.drop 1).takeWhile (fun c => c ≠ ' ') ∈ replCommandNames →
        routeLine line
          = .command ((line.drop 1).takeWhile (fun c => c ≠ ' '))
              ((line.drop 1).drop (((line.drop 1).takeWhile (fun c => c ≠ ' ')).length + 1))) ∧
      ((line.drop 1).takeWhile (fun c => c ≠ ' ') ∉ replCommandNames →
        isDiagnostic (routeLine line) = true)) ∧
    (line ≠ [] → line.head? ≠ some ':' → routeLine line = .pipeline line) := by
  refine ⟨rfl, rfl, fun hne hnx hcolon => ?_, fun hne hncolon => ?_⟩
  · have hroute : routeLine line = replCmdModel (line.drop 1) := by
      unfold routeLine
      rw [if_neg hne, if_neg hnx, if_pos hcolon]
    refine ⟨fun hmem => ?_, fun hnmem => ?_⟩
    · rw [hroute]
      rcases List.mem_cons.mp hmem with h | hmem
      · unfold replCmdModel
        rw [h]
        simp
      rcases List.mem_cons.mp hmem with h | hmem
      · unfold replCmdModel
        rw [h]
        simp
      rcases List.mem_cons.mp hmem with h | hmem
      · unfold replCmdModel
        rw [h]
        simp
      · simp at hmem
    · rw [hroute]
      have h1 : ¬((line.drop 1).takeWhile (fun c => c ≠ ' ') = ['c', 'd']) :=
        fun h => hnmem (by rw [h]; simp [replCommandNames])
      have h2 : ¬((line.drop 1).takeWhile (fun c => c ≠ ' ') = ['a', 's', 't']) :=
        fun h => hnmem (by rw [h]; simp [replCommandNames])
      have h3 : ¬((line.drop 1).takeWhile (fun c => c ≠ ' ') = ['t', 'y', 'p', 'e']) :=
        fun h => hnmem (by rw [h]; simp [replCommandNames])
      unfold replCmdModel
      by_cases h0 : ((line.drop 1).takeWhile (fun c => c ≠ ' ')).length = 0
      · rw [if_pos h0]
        rfl
      · rw [if_neg h0, if_neg h1, if_neg h2, if_neg h3]
        rfl
  · have hnx : line ≠ [':', 'e', 'x', 'i', 't'] :=
      fun h => hncolon (by rw [h]; rfl)
    unfold routeLine
    rw [if_neg hne, if_neg hnx, if_neg hncolon]

/-- Witness for C9: the line ":cd /tmp" is routed to the `cd` handler
with the remainder "/tmp". -/
theorem repl_routing_witness :
    routeLine [':', 'c', 'd', ' ', '/', 't', 'm', 'p']
      = .command ['c', 'd'] ['/', 't', 'm', 'p'] :=
  ((repl_routing [':', 'c', 'd', ' ', '/', 't', 'm', 'p']).2.2.1
    (by decide) (by decide) (by decide)).1 (by decide)

/-! ## Theorems: the grid layout claim -/

/-- The inner column loop: the cell at offset `c` of a row holds the
entry index `row + (col+c)*rows` exactly when that index is in range
(indices grow along the row, so the break behaves like a filter). -/
theorem gridRowEntries_getElem? (N rows row : Nat) :
    ∀ rem col c, c < rem →
      (gridRowEntries N rows row col rem)[c]?
        = if row + (col + c) * rows < N then some (row + (col + c) * rows) else none := by
  intro rem
  induction rem with
  | zero => intro col c hc; exact absurd hc (Nat.not_lt_zero c)
  | succ rem ih =>
    intro col c hc
    by_cases hcol : row + col * rows < N
    · have h1 : gridRowEntries N rows row col (rem + 1)
          = (row + col * rows) :: gridRowEntries N rows row (col + 1) rem := by
        simp only [gridRowEntries, if_pos hcol]
      rw [h1]
      cases c with
      | zero =>
        rw [if_pos (by simpa using hcol)]
        simp
      | succ c' =>
        have harr : col + (c' + 1) = col + 1 + c' := by omega
        simp only [List.getElem?_cons_succ]
        rw [ih (col + 1) c' (by omega), harr]
    · have h1 : gridRowEntries N rows row col (rem + 1) = [] := by
        simp only [gridRowEntries, if_neg hcol]
      have hge : ¬(row + (col + c) * rows < N) := by
        have hmul : col * rows ≤ (col + c) * rows :=
          Nat.mul_le_mul_right rows (by omega)
        omega
      rw [h1, if_neg hge]
      simp

/-- The inner column loop prints at most `rem` cells. -/
theorem gridRowEntries_length (N rows row : Nat) :
    ∀ rem col, (gridRowEntries N rows row col rem).length ≤ rem := by
  intro rem
  induction rem with
  | zero => intro col; simp [gridRowEntries]
  | succ rem ih =>
    intro col
    by_cases hcol : row + col * rows < N
    · simp only [gridRowEntries, if_pos hcol, List.length_cons]
      exact Nat.succ_le_succ (ih (col + 1))
    · simp [gridRowEntries, if_neg hcol]

/-- Every width read on a row is bounded by the maximum entry width. -/
theorem widthAt_le (l : List Nat) (W i : Nat) (h : ∀ w ∈ l, w ≤ W) :
    widthAt l i ≤ W := by
  unfold widthAt
  cases ht : l[i]? with
  | none => simp
  | some w => simpa using h w (List.getElem?_mem ht)

/-- A printed line on which every entry is at most `C` wide costs
exactly `C` characters per cell. -/
theorem printedRowWidth_eq (entryWidths : List Nat) (C : Nat) :
    ∀ (line : List Nat) (acc : Nat), (∀ i ∈ line, widthAt entryWidths i ≤ C) →
      line.foldl (fun acc i => acc + (widthAt entryWidths i + (C - widthAt entryWidths i))) acc
        = acc + line.length * C := by
  intro line
  induction line with
  | nil => intro acc _; simp
  | cons i rest ih =>
    intro acc h
    have hi : widthAt entryWidths i ≤ C := h i (List.mem_cons_self i rest)
    have hcell : widthAt entryWidths i + (C - widthAt entryWidths i) = C := by omega
    simp only [List.foldl_cons]
    rw [ih _ (fun j hj => h j (List.mem_cons_of_mem i hj)), hcell, List.length_cons,
      Nat.succ_mul]
    omega

/-- C1: grid layout.  For `N ≥ 0` entries of width at most `W ≥ 1` and
terminal width `T ≥ W + gap`, the column count `k = T/(W+gap)` is at
least 1, the grid has exactly `ceil(N/k)` rows, the cell at
`(row, col)` shows the entry with index `row + col*rows` (blank past
the end), and every printed line is at most `T` characters wide. -/
theorem grid_layout (entryWidths : List Nat) (W T : Nat)
    (hW : 1 ≤ W) (hT : W + gap ≤ T) (hmax : ∀ w ∈ entryWidths, w ≤ W) :
    gridClaimHolds entryWidths W T := by
  have hgap : gap = 2 := rfl
  have hC : 0 < W + gap := by omega
  have hk1 : 1 ≤ T / (W + gap) := (Nat.one_le_div_iff hC).mpr hT
  have hkpos : 0 < T / (W + gap) := hk1
  refine ⟨hk1, rfl, rfl, ?_, ?_, ?_, ?_, ?_⟩
  · -- N ≤ k * rows
    have hdm := Nat.div_add_mod (entryWidths.length + T / (W + gap) - 1) (T / (W + gap))
    have hmod : (entryWidths.length + T / (W + gap) - 1) % (T / (W + gap)) < T / (W + gap) :=
      Nat.mod_lt _ hkpos
    show entryWidths.length
        ≤ T / (W + gap) * intdiv_roundup entryWidths.length (T / (W + gap))
    unfold intdiv_roundup
    omega
  · -- rows is the least such row count
    intro hN
    rcases Nat.eq_zero_or_pos
        ((entryWidths.length + T / (W + gap) - 1) / (T / (W + gap))) with hq | hq
    · show T / (W + gap) * (intdiv_roundup entryWidths.length (T / (W + gap)) - 1)
          < entryWidths.length
      unfold intdiv_roundup
      rw [hq]
      simpa using hN
    · obtain ⟨q', hq'⟩ : ∃ q',
          (entryWidths.length + T / (W + gap) - 1) / (T / (W + gap)) = q' + 1 :=
        ⟨_, (Nat.succ_pred_eq_of_pos hq).symm⟩
      have hdm := Nat.div_add_mod (entryWidths.length + T / (W + gap) - 1) (T / (W + gap))
      have hmod : (entryWidths.length + T / (W + gap) - 1) % (T / (W + gap)) < T / (W + gap) :=
        Nat.mod_lt _ hkpos
      have hms : T / (W + gap) * (q' + 1) = T / (W + gap) * q' + T / (W + gap) :=
        Nat.mul_succ _ _
      show T / (W + gap) * (intdiv_roundup entryWidths.length (T / (W + gap)) - 1)
          < entryWidths.length
      unfold intdiv_roundup
      rw [hq'] at hdm ⊢
      simp only [Nat.add_sub_cancel]
      omega
  · -- one printed line per row
    simp [gridLines, List.length_map, List.length_range]
  · -- cell contents
    intro r hr c hc
    have hline : (gridLines entryWidths.length W T).getD r []
        = gridRowEntries entryWidths.length (gridRows entryWidths.length W T) r 0
            (gridColumns W T) := by
      rw [List.getD_eq_getElem?_getD]
      unfold gridLines
      rw [List.getElem?_map, List.getElem?_range hr]
      rfl
    rw [hline, gridRowEntries_getElem? _ _ _ (gridColumns W T) 0 c hc]
    simp only [Nat.zero_add]
  · -- every printed line fits in the terminal
    intro line hline
    obtain ⟨r, _, rfl⟩ := List.mem_map.mp hline
    have hlen := gridRowEntries_length entryWidths.length
      (gridRows entryWidths.length W T) r (gridColumns W T) 0
    have hwid : ∀ i ∈ gridRowEntries entryWidths.length
        (gridRows entryWidths.length W T) r 0 (gridColumns W T),
        widthAt entryWidths i ≤ W + gap :=
      fun i _ => Nat.le_trans (widthAt_le entryWidths W i hmax) (by omega)
    unfold printedRowWidth
    rw [printedRowWidth_eq entryWidths (W + gap) _ 0 hwid]
    have h1 : (gridRowEntries entryWidths.length (gridRows entryWidths.length W T) r 0
        (gridColumns W T)).length * (W + gap) ≤ gridColumns W T * (W + gap) :=
      Nat.mul_le_mul_right (W + gap) hlen
    have h2 : gridColumns W T * (W + gap) ≤ T := Nat.div_mul_le_self T (W + gap)
    omega

/-- Witness for C1: three entries of widths 1, 2, 1, maximum width 2,
terminal width 8 (two columns, two rows). -/
theorem grid_layout_witness : gridClaimHolds [1, 2, 1] 2 8 :=
  grid_layout [1, 2, 1] 2 8 (by decide) (by decide) (by decide)

/-- Evaluation of the magnitude loop from its start state. -/
theorem sizeLoop_eval (size : Nat) :
    sizeLoop size 1 0 =
      if size ≤ 1024 then (1, 0)
      else if size ≤ 1024 ^ 2 then (1024, 1)
      else if size ≤ 1024 ^ 3 then (1024 ^ 2, 2)
      else if size ≤ 1024 ^ 4 then (1024 ^ 3, 3)
      else (1024 ^ 4, 4) := by
  have e1 : sizeMagnitudes = 1024 := rfl
  have p2 : (1024 : Nat) ^ 2 = 1048576 := by norm_num
  have p3 : (1024 : Nat) ^ 3 = 1073741824 := by norm_num
  have p4 : (1024 : Nat) ^ 4 = 1099511627776 := by norm_num
  have step : ∀ mag oom, oom + 1 < 4 → sizeMagnitudes * mag < size →
      sizeLoop size mag oom = sizeLoop size (sizeMagnitudes * mag) (oom + 1) := by
    intro mag oom h4 hlt
    rw [sizeLoop, if_pos hlt, if_neg (by omega)]
  have stop : ∀ mag oom, ¬(sizeMagnitudes * mag < size) →
      sizeLoop size mag oom = (mag, oom) := by
    intro mag oom h
    rw [sizeLoop, if_neg h]
  have brk : ∀ mag oom, 4 ≤ oom + 1 → sizeMagnitudes * mag < size →
      sizeLoop size mag oom = (sizeMagnitudes * mag, oom + 1) := by
    intro mag oom h4 hlt
    rw [sizeLoop, if_pos hlt, if_pos h4]
  by_cases h1 : size ≤ 1024
  · rw [stop 1 0 (by rw [e1]; omega), if_pos h1]
  · by_cases h2 : size ≤ 1024 ^ 2
    · have h2' : size ≤ 1048576 := by rw [← p2]; exact h2
      rw [step 1 0 (by omega) (by rw [e1]; omega),
        stop (sizeMagnitudes * 1) 1 (by rw [e1]; omega),
        if_neg h1, if_pos h2]
      rw [e1]
    · have h2' : ¬size ≤ 1048576 := by rw [← p2]; exact h2
      by_cases h3 : size ≤ 1024 ^ 3
      · have h3' : size ≤ 1073741824 := by rw [← p3]; exact h3
        rw [step 1 0 (by omega) (by rw [e1]; omega),
          step (sizeMagnitudes * 1) 1 (by omega) (by rw [e1]; omega),
          stop (sizeMagnitudes * (sizeMagnitudes * 1)) 2 (by rw [e1]; omega),
          if_neg h1, if_neg h2, if_pos h3]
        norm_num [e1]
      · have h3' : ¬size ≤ 1073741824 := by rw [← p3]; exact h3
        by_cases h4 : size ≤ 1024 ^ 4
        · have h4' : size ≤ 1099511627776 := by rw [← p4]; exact h4
          rw [step 1 0 (by omega) (by rw [e1]; omega),
            step (sizeMagnitudes * 1) 1 (by omega) (by rw [e1]; omega),
            step (sizeMagnitudes * (sizeMagnitudes * 1)) 2 (by omega) (by rw [e1]; omega),
            stop (sizeMagnitudes * (sizeMagnitudes * (sizeMagnitudes * 1))) 3
              (by rw [e1]; omega),
            if_neg h1, if_neg h2, if_neg h3, if_pos h4]
          norm_num [e1]
        · have h4' : ¬size ≤ 1099511627776 := by rw [← p4]; exact h4
          rw [step 1 0 (by omega) (by rw [e1]; omega),
            step (sizeMagnitudes * 1) 1 (by omega) (by rw [e1]; omega),
            step (sizeMagnitudes * (sizeMagnitudes * 1)) 2 (by omega) (by rw [e1]; omega),
            brk (sizeMagnitudes * (sizeMagnitudes * (sizeMagnitudes * 1))) 3
              (by omega) (by rw [e1]; omega),
            if_neg h1, if_neg h2, if_neg h3, if_neg h4]
          norm_num [e1]

/-- C3 fails as stated: at a size of exactly 100 bytes the scaled value
is exactly 100, the claim's "≥ 100" rule demands 0 decimal digits, but
the code's strict `relativeSize > 100` comparison gives 1 digit (and no
unit larger than bytes is ever chosen although every unit scales 100 to
at most 1024). -/
theorem size_formatter_counterexample : ¬claimedSizeFormat 100 := by
  intro h
  have he : sizeLoop 100 1 0 = (1, 0) := by rw [sizeLoop_eval]; norm_num
  obtain ⟨_, _, hdig, _⟩ := h
  have h1 : (printSizeNicely 100).digitsAfterPoint = 1 := by
    simp [printSizeNicely, he]
  have h2 : (printSizeNicely 100).magnitude = 1 := by
    simp [printSizeNicely, he]
  rw [h1, h2] at hdig
  norm_num at hdig

/-- C3 as amended: the formatter chooses the smallest unit whose scaled
value is at most 1024 (TB when even that fails), prints 0 decimal
digits when the scaled value exceeds 100, 1 digit when it exceeds 10,
else 2, and labels binary magnitudes with the decimal unit names; the
chosen order of magnitude is moreover at most every unit that scales
the size to at most 1024. -/
theorem size_formatter_amended (size : Nat) :
    printSizeNicely size = expectedSizeOutput size ∧
    (∀ m, m ≤ 4 → size ≤ 1024 ^ (m + 1) → (printSizeNicely size).orderOfMag ≤ m) ∧
    ((printSizeNicely size).orderOfMag < 4 →
      size ≤ 1024 ^ ((printSizeNicely size).orderOfMag + 1)) := by
  have he := sizeLoop_eval size
  have p2 : (1024 : Nat) ^ 2 = 1048576 := by norm_num
  have p3 : (1024 : Nat) ^ 3 = 1073741824 := by norm_num
  have p4 : (1024 : Nat) ^ 4 = 1099511627776 := by norm_num
  have hoom : (sizeLoop size 1 0).2 = expectedOrderOfMag size := by
    rw [he]
    unfold expectedOrderOfMag
    rw [p2, p3, p4]
    by_cases h1 : size ≤ 1024 <;> by_cases h2 : size ≤ 1048576 <;>
      by_cases h3 : size ≤ 1073741824 <;> by_cases h4 : size ≤ 1099511627776 <;>
      simp [h1, h2, h3, h4]
  have hmag : (sizeLoop size 1 0).1 = 1024 ^ expectedOrderOfMag size := by
    rw [he]
    unfold expectedOrderOfMag
    rw [p2, p3, p4]
    by_cases h1 : size ≤ 1024 <;> by_cases h2 : size ≤ 1048576 <;>
      by_cases h3 : size ≤ 1073741824 <;> by_cases h4 : size ≤ 1099511627776 <;>
      simp [h1, h2, h3, h4]
  refine ⟨?_, ?_, ?_⟩
  · unfold printSizeNicely expectedSizeOutput
    rw [hmag, hoom]
    simp [useSIUnitNames]
  · intro m hm hsz
    show (sizeLoop size 1 0).2 ≤ m
    rw [hoom]
    unfold expectedOrderOfMag
    rw [p2, p3, p4]
    interval_cases m <;> norm_num at hsz <;> split_ifs <;> omega
  · intro hlt
    have hlt' : expectedOrderOfMag size < 4 := by
      rw [← hoom]
      exact hlt
    show size ≤ 1024 ^ ((sizeLoop size 1 0).2 + 1)
    rw [hoom]
    unfold expectedOrderOfMag at hlt' ⊢
    split_ifs at hlt' ⊢ with a1 a2 a3 a4
    · simpa using a1
    · norm_num at a2 ⊢
      exact a2
    · norm_num at a3 ⊢
      exact a3
    · norm_num at a4 ⊢
      exact a4
    · exact absurd hlt' (by norm_num)

/-- Witness for C3 (amended): 2048 bytes print as "2.00 kB" — order of
magnitude 1, two decimal digits — and kB is indeed the smallest fitting
unit. -/
theorem size_formatter_amended_witness :
    printSizeNicely 2048 = expectedSizeOutput 2048 ∧
    (printSizeNicely 2048).orderOfMag ≤ 1 :=
  ⟨(size_formatter_amended 2048).1,
   (size_formatter_amended 2048).2.1 1 (by norm_num) (by norm_num)⟩

/-! ## Theorems: the nested-list printer claim -/

/-- C8 fails as stated: a `[[Int]]` value — whose element type `[Int]`
is itself a list — keeps its braces on the line; after the opening
brace, the printer emits the first element, not a newline.  The braces
only move to their own lines when the element type is a list of
lists. -/
theorem nestedList_counterexample : ¬claimedNestedBraces := by
  intro h
  have h2 := h (.vec [.vec [.int 1], .vec [.int 2]]) (.list (.list .int)) 0 rfl
  rw [show (displayListList (.vec [.vec [.int 1], .vec [.int 2]])
        (.list (.list .int)) 0).take 3
      = [outTok.ch '[', outTok.val (.vec [.int 1]), outTok.ch ','] from rfl] at h2
  simp at h2

/-- The element loop, started at index `i` with `i + cs.length` as the
total count, emits an indent (for a non-first element) and then the
elements separated by `",\n"` plus a `depth+1` indent. -/
theorem listItemsToks_eq_intersperse (d : Nat) :
    ∀ (cs : List (List outTok)) (i : Nat),
      listItemsToks d (i + cs.length) i cs
        = (if i ≠ 0 ∧ cs.length ≠ 0 then [outTok.spaces (d + 1)] else [])
          ++ (cs.intersperse [outTok.ch ',', outTok.ch '\n', outTok.spaces (d + 1)]).flatten := by
  intro cs
  have hunfold : ∀ total i c cs, listItemsToks d total i (c :: cs)
      = (if i ≠ 0 then [outTok.spaces (d + 1)] else []) ++ c
        ++ (if i < total - 1 then [outTok.ch ',', outTok.ch '\n'] else [])
        ++ listItemsToks d total (i + 1) cs := fun _ _ _ _ => rfl
  induction cs with
  | nil => intro i; simp [listItemsToks]
  | cons c rest ih =>
    intro i
    cases rest with
    | nil =>
      have hc : ¬i < i + 1 - 1 := by omega
      rw [show i + [c].length = i + 1 from rfl, hunfold, if_neg hc]
      simp [listItemsToks, List.intersperse]
    | cons c' rs =>
      have hc : i < i + (rs.length + 1 + 1) - 1 := by omega
      have hstep : listItemsToks d (i + (rs.length + 1 + 1)) (i + 1) (c' :: rs)
          = [outTok.spaces (d + 1)]
            ++ ((c' :: rs).intersperse
                [outTok.ch ',', outTok.ch '\n', outTok.spaces (d + 1)]).flatten := by
        have h1 := ih (i + 1)
        rw [show i + 1 + (c' :: rs).length = i + (rs.length + 1 + 1) by
          simp [List.length_cons]; omega] at h1
        simpa using h1
      have hint : (c :: c' :: rs).intersperse
            [outTok.ch ',', outTok.ch '\n', outTok.spaces (d + 1)]
          = c :: [outTok.ch ',', outTok.ch '\n', outTok.spaces (d + 1)]
              :: ((c' :: rs).intersperse
                  [outTok.ch ',', outTok.ch '\n', outTok.spaces (d + 1)]) := rfl
      rw [show i + (c :: c' :: rs).length = i + (rs.length + 1 + 1) by
          simp [List.length_cons],
        hunfold, if_pos hc, hstep, hint]
      simp

/-- C8 as amended: each list printed by the nested-list printer puts
its braces on their own lines (children indented by `depth+1`) exactly
when its element type is itself a list of lists — not merely a list —
and keeps them on the line otherwise; siblings are separated by a comma
and a newline (subsequent siblings indented by `depth+1`); at depth 0
the ` :: {type}` suffix follows, preceded by a newline when the braces
stayed on the line. -/
theorem nestedList_amended (v : value) (t : ty) (d : Nat) :
    displayListList v t d
      = [outTok.ch '[']
          ++ (if typeIsList (typeGetListElements (typeGetListElements t)) = true
              then [outTok.ch '\n', outTok.spaces (d + 1)] else [])
          ++ ((listListChildren (valueGetVector v) (typeGetListElements t)
                (typeIsList (typeGetListElements (typeGetListElements t))) d).intersperse
                  [outTok.ch ',', outTok.ch '\n', outTok.spaces (d + 1)]).flatten
          ++ (if typeIsList (typeGetListElements (typeGetListElements t)) = true
              then [outTok.ch '\n', outTok.spaces d] else [])
          ++ [outTok.ch ']']
          ++ (if d = 0 then
                (if typeIsList (typeGetListElements (typeGetListElements t)) = true
                 then [] else [outTok.ch '\n'])
                  ++ [outTok.typeSuffix t]
              else []) := by
  have hitems : ∀ (cs : List (List outTok)),
      listItemsToks d cs.length 0 cs
        = (cs.intersperse [outTok.ch ',', outTok.ch '\n', outTok.spaces (d + 1)]).flatten := by
    intro cs
    have h1 := listItemsToks_eq_intersperse d cs 0
    simpa using h1
  cases v <;>
    simp [displayListList, wrapListToks, valueGetVector, hitems,
      displayListList_bracesOnOwnLine, displayListList_bracesOnOwnLineIfRecursing,
      listListChildren, listItemsToks]

end Gosh